import Mathlib

/-!
A shallow embedding, in Lean 4, of the class-analysis core of the
`@lit-labs/analyzer` package: the custom-element classifier and tag-name
resolution (`custom-elements.ts`), the class member / heritage / declaration
extraction (`javascript/classes.ts`), and the type resolver together with the
scratch compilation service (`types.ts`).

TypeScript values that may be `undefined` are embedded as `Option`;
JavaScript `Map`s are embedded as association lists with `Map.set` update
semantics (replace-in-place on an existing key, append otherwise, preserving
insertion order); the process-wide append-only diagnostics collection is
embedded by having each extraction function return the list of diagnostics it
appends, in order.  External collaborators that are outside the analyzed
excerpt (the TypeScript type checker, the reference resolver, the path and
package utilities, and the JSDoc helpers) are embedded as explicit
environment records of pure functions; whenever such a collaborator is
modelled rather than translated, its doc comment says so.
-/

namespace LitAnalyzer

/-! ## Diagnostics -/

/-- `ts.DiagnosticCategory`. -/
inductive DiagnosticCategory where
  | warning
  | error
  | suggestion
  | message
deriving DecidableEq, Repr

/-- Modelled from the spec: the stable diagnostic code taxonomy
(`diagnostic-code.ts` is not part of the excerpt); the sources only use the
"unsupported construct" code. -/
inductive DiagnosticCode where
  | UNSUPPORTED
deriving DecidableEq, Repr

/-- The analyzer diagnostic record: message, severity category and optional
stable code. -/
structure Diagnostic where
  message : String
  category : DiagnosticCategory
  code : Option DiagnosticCode
deriving DecidableEq, Repr

/-- Modelled from the spec: `createDiagnostic` (`errors.ts` is not part of the
excerpt) builds a diagnostic from a message plus optional category and code;
per the error-handling design the severity defaults to error when no category
is given at the call site. -/
def createDiagnostic (message : String) (category : Option DiagnosticCategory)
    (code : Option DiagnosticCode) : Diagnostic :=
  ⟨message, category.getD DiagnosticCategory.error, code⟩

/-! ## Syntax model used by `custom-elements.ts`

`getTagName` inspects a class-like declaration's JSDoc tags and the statements
of its syntactic parent; `isCustomElementSubclass` additionally inspects the
base types computed by the type checker, each of which yields (via
`t.getSymbol()?.getDeclarations()`) an optional list of declaration nodes.
A class-like node therefore carries: its optional name, its JSDoc tags, the
children of its parent (the sibling statements scanned for
`customElements.define` calls) and, for each checker-computed base type, the
optional declaration list of that base type's symbol. -/

/-- A JSDoc tag comment is either a plain string or a node array
(`string | NodeArray<JSDocComment> | undefined` in TypeScript; the
`undefined` case is the `Option` wrapper in `JSDocTag`). -/
inductive JSDocComment where
  | str (s : String)
  | nodeArray
deriving DecidableEq, Repr

/-- A JSDoc tag: its tag name and optional comment. -/
structure JSDocTag where
  tagName : String
  comment : Option JSDocComment
deriving DecidableEq, Repr

/-- The expression forms distinguished by the sibling-statement scan:
identifiers, string-literal-likes, and everything else. -/
inductive Expr where
  | ident (text : String)
  | strLit (text : String)
  | otherExpr
deriving DecidableEq, Repr

/-- A top-level statement as seen by the sibling scan: an expression
statement whose expression is a call with a property-access callee
(`obj.member(args)`), or any other statement. -/
inductive Statement where
  | exprCallStmt (obj : Expr) (member : Expr) (args : List Expr)
  | otherStmt
deriving DecidableEq, Repr

/-- A syntax node as consumed by `custom-elements.ts`: an interface
declaration (relevant only for the ambient `HTMLElement` check), a class-like
declaration, or any other node.  `baseTypes` records, for each base type the
checker reports for the class, the result of
`t.getSymbol()?.getDeclarations()` (`none` when the symbol or its declaration
list is undefined). -/
inductive TsNode where
  | interfaceDecl (name : String)
  | classDecl (name : Option String) (jsdocTags : List JSDocTag)
      (siblings : List Statement) (baseTypes : List (Option (List TsNode)))
  | otherNode

/-! ## `custom-elements.ts`: tag name resolution -/

/-- Embedding of JavaScript `String.prototype.toLowerCase` (the tag names it
is applied to are ASCII identifiers). -/
def jsToLowerCase (s : String) : String := ⟨s.data.map Char.toLower⟩

/-- Embedding of JavaScript `String.prototype.trim`: drop whitespace from
both ends of the string. -/
def jsTrim (s : String) : String :=
  ⟨((s.data.dropWhile Char.isWhitespace).reverse.dropWhile Char.isWhitespace).reverse⟩

/-- One step of the sibling scan in `getTagName`: matches
`customElements.define('x-foo', XFoo)` where the second argument is an
identifier textually equal to the class's own name, returning the tag-name
string literal on a match. -/
def defineTagFor (className : Option String) (child : Statement) : Option String :=
  match child with
  | Statement.exprCallStmt obj member args =>
    match args with
    | tagNameArg :: ctorArg :: _ =>
      match obj, member, tagNameArg, ctorArg with
      | Expr.ident objText, Expr.ident memberText, Expr.strLit tagText, Expr.ident ctorText =>
        if objText = "customElements" ∧ memberText = "define" ∧ className = some ctorText then
          some tagText
        else
          none
      | _, _, _, _ => none
    | _ => none
  | Statement.otherStmt => none

/-- The `node.parent.forEachChild` loop of `getTagName`: every matching
`customElements.define` call overwrites the local `tagName`, so the last
match wins. -/
def scanDefines (className : Option String) (siblings : List Statement) : Option String :=
  siblings.foldl
    (fun tagName child =>
      match defineTagFor className child with
      | some t => some t
      | none => tagName)
    none

/-- `getTagName`: first trust an explicit JSDoc tag whose name lowercases to
`customelement` and whose comment is a plain string (returned trimmed);
otherwise scan the parent's children for an imperative
`customElements.define` registration. -/
def getTagName (node : TsNode) : Option String :=
  match node with
  | TsNode.classDecl className jsdocTags siblings _ =>
    match jsdocTags.find? (fun tag => jsToLowerCase tag.tagName == "customelement") with
    | some ⟨_, some (JSDocComment.str s)⟩ => some (jsTrim s)
    | _ => scanDefines className siblings
  | _ => none

/-! ## `custom-elements.ts`: custom element classification -/

/-- The `ts.isInterfaceDeclaration(declaration) && declaration.name?.text ===
'HTMLElement'` test inside `_isCustomElementClassDeclaration` (an interface
declaration always has a name). -/
def isHTMLElementInterface : TsNode → Bool
  | TsNode.interfaceDecl name => name == "HTMLElement"
  | _ => false

mutual

/-- `isCustomElementSubclass`: false for non-class-like nodes; true when a
tag name can be determined; otherwise true when some checker-computed base
type classifies via `_isCustomElementClassDeclaration`. -/
def isCustomElementSubclass : TsNode → Bool
  | TsNode.classDecl className jsdocTags siblings baseTypes =>
    if (getTagName (TsNode.classDecl className jsdocTags siblings baseTypes)).isSome then
      true
    else
      anyBaseIsCustomElement baseTypes
  | _ => false

/-- The `for (const t of baseTypes)` loop of `isCustomElementSubclass`. -/
def anyBaseIsCustomElement : List (Option (List TsNode)) → Bool
  | [] => false
  | t :: rest => _isCustomElementClassDeclaration t || anyBaseIsCustomElement rest

/-- `_isCustomElementClassDeclaration`: `declarations?.some(...) === true`
over the declarations of the base type's symbol (false when the symbol or its
declaration list is undefined). -/
def _isCustomElementClassDeclaration : Option (List TsNode) → Bool
  | none => false
  | some declarations => anyDeclarationQualifies declarations

/-- The `declarations?.some(...)` predicate: a declaration qualifies when it
is the ambient `HTMLElement` interface or itself classifies as a custom
element subclass. -/
def anyDeclarationQualifies : List TsNode → Bool
  | [] => false
  | d :: rest =>
    (isHTMLElementInterface d || isCustomElementSubclass d) || anyDeclarationQualifies rest

end

/-- The inheritance-chain hypothesis of the transitivity property: a
class-like declaration whose only checker-reported base type has a symbol
declaring, as its single declaration, either the ambient `HTMLElement`
interface (one level) or another class that inherits from `HTMLElement` in
`n` levels.  `InheritsHTMLElement d n` holds exactly for classes that extend
`HTMLElement` through `n ≥ 1` levels of inheritance. -/
inductive InheritsHTMLElement : TsNode → Nat → Prop where
  | direct (className : Option String) (jsdocTags : List JSDocTag)
      (siblings : List Statement) :
      InheritsHTMLElement
        (TsNode.classDecl className jsdocTags siblings
          [some [TsNode.interfaceDecl "HTMLElement"]]) 1
  | level (className : Option String) (jsdocTags : List JSDocTag)
      (siblings : List Statement) (next : TsNode) (n : Nat) :
      InheritsHTMLElement next n →
      InheritsHTMLElement
        (TsNode.classDecl className jsdocTags siblings [some [next]]) (n + 1)

/-! ## Data model shared by heritage and reference resolution -/

/-- The analyzer `Reference` model: a name plus an optional originating
module specifier. -/
structure Reference where
  name : String
  module : Option String
deriving DecidableEq, Repr

/-- The analyzer `ClassHeritage` model: optional superclass reference and an
ordered (currently always empty) mixin list. -/
structure ClassHeritage where
  superClass : Option Reference
  mixins : List Reference
deriving DecidableEq, Repr

/-! ## Syntax model used by `javascript/classes.ts` -/

/-- The token of a heritage clause (`extends` or `implements`). -/
inductive HeritageToken where
  | extendsKeyword
  | implementsKeyword
deriving DecidableEq, Repr

/-- An `ts.ExpressionWithTypeArguments` entry of a heritage clause; only its
`expression` is consumed. -/
structure ExpressionWithTypeArgs where
  expression : Expr
deriving DecidableEq, Repr

/-- A `ts.HeritageClause`: its token and its list of type expressions. -/
structure HeritageClause where
  token : HeritageToken
  types : List ExpressionWithTypeArgs
deriving DecidableEq, Repr

/-- A class member name: either a plain identifier or any other name form
(computed key, string or numeric literal, private identifier); `getText`
is defined on all of them, `ts.isIdentifier` only accepts the first. -/
inductive MemberName where
  | ident (text : String)
  | nonIdent (text : String)
deriving DecidableEq, Repr

/-- `node.name.getText()`. -/
def MemberName.getText : MemberName → String
  | MemberName.ident text => text
  | MemberName.nonIdent text => text

/-- `ts.isIdentifier(node.name)`. -/
def MemberName.isIdentifierName : MemberName → Bool
  | MemberName.ident _ => true
  | MemberName.nonIdent _ => false

/-- The declared accessibility of a member, as computed by the shared
`getPrivacy` modifier inspection (`public` / `protected` / `private`). -/
inductive Privacy where
  | pub
  | prot
  | priv
deriving DecidableEq, Repr

/-- A member of a class body as consumed by `getClassMembers`: a method
declaration (with or without an implementation body), a property
declaration, or any other member kind (constructors, accessors, index
signatures), which the extractor ignores.  `hasStatic` is the result of the
`hasStaticModifier` check and `privacy` of the `getPrivacy` check (shared
modifier-inspection utilities outside the excerpt). -/
inductive ClassMember where
  | methodDecl (name : MemberName) (hasBody : Bool) (hasStatic : Bool) (privacy : Privacy)
  | propertyDecl (name : MemberName) (hasStatic : Bool) (privacy : Privacy)
      (initializer : Option String)
  | otherMember
deriving DecidableEq, Repr

/-- A `ts.ClassLikeDeclaration` as consumed by `javascript/classes.ts`: its
optional name, the results of the `hasDefaultModifier` / `hasExportModifier`
checks, its optional heritage clauses and its member list. -/
structure ClassLikeDecl where
  name : Option String
  hasDefault : Bool
  hasExport : Bool
  heritageClauses : Option (List HeritageClause)
  members : List ClassMember
deriving DecidableEq, Repr

/-- Modelled from the spec: the external collaborators used by
`javascript/classes.ts` that are outside the excerpt.
`getReferenceForIdentifier` is the Reference Resolver's identifier-to-
Reference mapping (`references.ts`); `extDiags` collects, per retained
member, the diagnostics appended by the external per-member extraction calls
(`getFunctionLikeInfo`, `parseNodeJSDocInfo` and the type resolution for the
member's node), which append to the same process-wide diagnostics
collection. -/
structure ClassesEnv where
  getReferenceForIdentifier : String → Option Reference
  extDiags : ClassMember → List Diagnostic

/-! ## `javascript/classes.ts`: heritage resolution -/

/-- `getSuperClass`: identifier expressions resolve through the Reference
Resolver; any other expression form emits a warning diagnostic with the
UNSUPPORTED code and yields no superclass. -/
def getSuperClass (env : ClassesEnv) (expression : Expr) :
    Option Reference × List Diagnostic :=
  match expression with
  | Expr.ident text => (env.getReferenceForIdentifier text, [])
  | _ =>
    (none,
      [createDiagnostic
        "Expected expression to be a concrete superclass. Mixins are not yet supported."
        (some DiagnosticCategory.warning) (some DiagnosticCode.UNSUPPORTED)])

/-- `getHeritageFromExpression`: mixin extraction is stubbed to the empty
list; the superclass comes from `getSuperClass`. -/
def getHeritageFromExpression (env : ClassesEnv) (expression : Expr) :
    ClassHeritage × List Diagnostic :=
  let mixins : List Reference := []
  let sc := getSuperClass env expression
  (⟨sc.1, mixins⟩, sc.2)

/-- `getHeritage`: find the `extends` heritage clause; with exactly one type
expression resolve it, with any other number of type expressions (or no
clause at all) fall through to the empty heritage, emitting an
"Illegal syntax" diagnostic in the multiple-types case. -/
def getHeritage (env : ClassesEnv) (declaration : ClassLikeDecl) :
    ClassHeritage × List Diagnostic :=
  match declaration.heritageClauses.bind
      (fun cs => cs.find? (fun c => c.token == HeritageToken.extendsKeyword)) with
  | some extendsClause =>
    match extendsClause.types with
    | [t] => getHeritageFromExpression env t.expression
    | _ =>
      (⟨none, []⟩,
        [createDiagnostic
          "Illegal syntax: did not expect extends clause to have multiple types"
          none none])
  | none => (⟨none, []⟩, [])

/-! ## `javascript/classes.ts`: member extraction -/

/-- The analyzer `ClassField` model (name, staticness, privacy and the
initializer captured as opaque source text; the documentation info and the
computed `Type` attached by the external collaborators are not part of the
excerpt). -/
structure ClassField where
  name : String
  hasStatic : Bool
  privacy : Privacy
  default : Option String
deriving DecidableEq, Repr

/-- The analyzer `ClassMethod` model (name, staticness, privacy; the
documentation and signature info attached by the external collaborators are
not part of the excerpt). -/
structure ClassMethod where
  name : String
  hasStatic : Bool
  privacy : Privacy
deriving DecidableEq, Repr

/-- JavaScript `Map.set` over an insertion-ordered association list: replace
the value in place when the key is present, append otherwise. -/
def mapSet {α : Type} (m : List (String × α)) (k : String) (v : α) :
    List (String × α) :=
  if m.any (fun p => p.1 == k) then
    m.map (fun p => if p.1 == k then (k, v) else p)
  else
    m ++ [(k, v)]

/-- The result of `getClassMembers` (the four member maps) together with the
diagnostics it appends to the shared collection while building them. -/
structure ClassMembersResult where
  fieldMap : List (String × ClassField)
  staticFieldMap : List (String × ClassField)
  methodMap : List (String × ClassMethod)
  staticMethodMap : List (String × ClassMethod)
  diags : List Diagnostic
deriving Repr

/-- The warning emitted for a property declaration whose name is not a plain
identifier. -/
def unsupportedPropertyDiagnostic : Diagnostic :=
  createDiagnostic
    "@lit-labs/analyzer only supports analyzing class properties named with plain identifiers. This property was ignored."
    (some DiagnosticCategory.warning) (some DiagnosticCode.UNSUPPORTED)

/-- The body of the `declaration.members.forEach` callback in
`getClassMembers`: method declarations are retained only when they have an
implementation body (`node.body`); property declarations named by anything
other than a plain identifier are diagnosed and skipped; retained members
are inserted into the map selected by their staticness. -/
def processMember (env : ClassesEnv) (st : ClassMembersResult) (node : ClassMember) :
    ClassMembersResult :=
  match node with
  | ClassMember.methodDecl nm hasBody hasStat privacy =>
    if hasBody then
      let name := nm.getText
      let method : ClassMethod := ⟨name, hasStat, privacy⟩
      if hasStat then
        { st with staticMethodMap := mapSet st.staticMethodMap name method,
                  diags := st.diags ++ env.extDiags node }
      else
        { st with methodMap := mapSet st.methodMap name method,
                  diags := st.diags ++ env.extDiags node }
    else
      st
  | ClassMember.propertyDecl nm hasStat privacy initializer =>
    match nm with
    | MemberName.ident text =>
      let fld : ClassField := ⟨text, hasStat, privacy, initializer⟩
      if hasStat then
        { st with staticFieldMap := mapSet st.staticFieldMap text fld,
                  diags := st.diags ++ env.extDiags node }
      else
        { st with fieldMap := mapSet st.fieldMap text fld,
                  diags := st.diags ++ env.extDiags node }
    | MemberName.nonIdent _ =>
      { st with diags := st.diags ++ [unsupportedPropertyDiagnostic] }
  | ClassMember.otherMember => st

/-- `getClassMembers`: fold the member-processing callback over the class
body, starting from four empty maps. -/
def getClassMembers (env : ClassesEnv) (declaration : ClassLikeDecl) :
    ClassMembersResult :=
  declaration.members.foldl (processMember env) ⟨[], [], [], [], []⟩

/-! ## `javascript/classes.ts`: declaration name and info -/

/-- `getClassDeclarationName`: the class's own name, falling back to
`"default"` for default exports; an unnamed non-default-export class is
diagnosed as illegal syntax and yields no name.  Returns the optional name
together with the diagnostics appended. -/
def getClassDeclarationName (declaration : ClassLikeDecl) :
    Option String × List Diagnostic :=
  let name : Option String :=
    match declaration.name with
    | some text => some text
    | none => if declaration.hasDefault then some "default" else none
  match name with
  | none =>
    (none,
      [createDiagnostic
        "Illegal syntax: a class declaration must either have a name or be a default export"
        none none])
  | some n => (some n, [])

/-- The analyzer `DeclarationInfo` for a class declaration: its name and
export flag (the source record also carries the node and a factory closure
that builds the declaration model; producing the info is what makes the
declaration model constructible). -/
structure DeclarationInfo where
  name : String
  isExport : Bool
deriving DecidableEq, Repr

/-- `getClassDeclarationInfo`: resolve the declaration name; when no name
can be determined return `undefined` (no declaration info, hence no
declaration model for this declaration), otherwise return the info.  Returns
the optional info together with the diagnostics appended. -/
def getClassDeclarationInfo (declaration : ClassLikeDecl) :
    Option DeclarationInfo × List Diagnostic :=
  match getClassDeclarationName declaration with
  | (none, diags) => (none, diags)
  | (some n, diags) => (some ⟨n, declaration.hasExport⟩, diags)

/-! ## Syntax and type model used by `types.ts` -/

/-- Modelled from the spec: the compiler `ts.Type` objects handed to the
Type Resolver by the type-checking service, distinguished only as far as the
resolver's normalization needs — literal types versus everything else
(identified by printed text). -/
inductive TsType where
  | stringLiteralType (value : String)
  | numberLiteralType (value : Int)
  | booleanLiteralType (value : Bool)
  | otherType (text : String)
deriving DecidableEq, Repr

/-- Modelled from the spec: `checker.getBaseTypeOfLiteralType` widens a
literal type to its base type (`"hi"` to `string`) and leaves every other
type unchanged. -/
def getBaseTypeOfLiteralType : TsType → TsType
  | TsType.stringLiteralType _ => TsType.otherType "string"
  | TsType.numberLiteralType _ => TsType.otherType "number"
  | TsType.booleanLiteralType _ => TsType.otherType "boolean"
  | t => t

/-- Modelled from the spec: `checker.typeToString` prints a type in ordinary
type-annotation style (a string-literal type prints as a quoted literal). -/
def typeToString : TsType → String
  | TsType.stringLiteralType value => "\"" ++ value ++ "\""
  | TsType.numberLiteralType value => toString value
  | TsType.booleanLiteralType b => cond b "true" "false"
  | TsType.otherType text => text

/-- A possibly qualified entity name (`Foo` or `ts.SyntaxKind`). -/
inductive EntityName where
  | identName (text : String)
  | qualified (left : EntityName) (right : String)
deriving DecidableEq, Repr

/-- The recursion of `getRootName` on a present entity name: the text of an
identifier, or the root of the left part of a qualified name. -/
def rootNameOf : EntityName → String
  | EntityName.identName text => text
  | EntityName.qualified left _ => rootNameOf left

/-- `getRootName`: the left-most name of a possibly qualified identifier,
with the empty string for an undefined name. -/
def getRootName : Option EntityName → String
  | none => ""
  | some name => rootNameOf name

/-- The literal carried by a literal-type node used as an import-type
argument (`ts.isStringLiteral` accepts only the first form). -/
inductive LiteralExpr where
  | stringLiteralExpr (text : String)
  | otherLiteral
deriving DecidableEq, Repr

/-- The argument of an import-type node: a literal-type node
(`ts.isLiteralTypeNode`) wrapping its literal, or any other type node. -/
inductive ImportArgument where
  | literalType (literal : LiteralExpr)
  | nonLiteralType
deriving DecidableEq, Repr

/-- A `ts.TypeNode` syntax tree as walked by `getReferencesForTypeNode`:
type-reference nodes (carrying their possibly qualified type name),
import-type nodes (carrying their argument and optional qualifier), and all
other type nodes; `children` is what `ts.forEachChild` visits. -/
inductive TypeNode where
  | typeReference (typeName : EntityName) (children : List TypeNode)
  | importTypeNode (argument : ImportArgument) (qualifier : Option EntityName)
      (children : List TypeNode)
  | otherTypeNode (children : List TypeNode)

/-- A top-level statement of the scratch file as enumerated by
`ts.forEachChild` in `parseType`: a type alias declaration carrying its
right-hand-side type node, or any other statement. -/
inductive TopLevelStatement where
  | typeAliasDecl (ty : TypeNode)
  | otherStatement

/-- Package manifest info from `getPackageInfo`: the manifest's root
directory, the package name, and the `main` / `module` entry points. -/
structure PackageInfo where
  rootDir : String
  name : String
  main : Option String
  module : Option String
deriving DecidableEq, Repr

/-- Embedding of `path.isAbsolute` on POSIX paths: the path starts with a
separator. -/
def isAbsolute (s : String) : Bool := s.data.head? == some '/'

/-- Modelled from the spec: the external collaborators used by `types.ts`
that are outside the excerpt.  Locations (`ts.Node` positions at which types
and symbols are resolved) are opaque and embedded as `Nat`; symbols are
identified by name, so `getSymbolForName` returns the found symbol's name.
`parseSourceText` is the TypeScript parser behind the scratch language
service: a pure function from the current buffer text to the parsed list of
top-level statements (`none` when the service yields no source file).
`normalize`, `resolveExtension`, `getPackageInfo` and `absoluteToPackage`
are the path/package utilities (`paths.ts`, `javascript/packages.ts`). -/
structure TypesEnv where
  getTypeAtLocation : Nat → TsType
  typeToTypeNode : TsType → Option TypeNode
  getTypeFromTypeNode : TypeNode → TsType
  getSymbolForName : String → Nat → Option String
  getReferenceForSymbol : String → Nat → Option Reference
  getImportReference : String → String → Reference
  parseSourceText : String → Option (List TopLevelStatement)
  normalize : String → String
  resolveExtension : String → String
  getPackageInfo : String → PackageInfo
  absoluteToPackage : String → String → String

/-! ## `types.ts`: import specifier normalization -/

/-- `getSpecifierFromTypeImport`: resolve the extension and normalize; a
non-absolute specifier is returned as-is, while an absolute filesystem path
is converted to an npm-style specifier from the nearest package manifest —
the package-relative module path is dropped when it equals the manifest's
primary entry point (`module`, falling back to `main`), or when it is empty,
collapsing to the bare package name. -/
def getSpecifierFromTypeImport (env : TypesEnv) (specifier0 : String) : String :=
  let specifier := env.normalize (env.resolveExtension specifier0)
  if isAbsolute specifier then
    let info := env.getPackageInfo specifier
    let modulePath := env.absoluteToPackage specifier info.rootDir
    let packageMain := info.module.orElse (fun _ => info.main)
    let modulePath1 := if packageMain.isSome && packageMain == some modulePath then "" else modulePath
    info.name ++ (if modulePath1 == "" then "" else "/" ++ modulePath1)
  else
    specifier

/-- The npm-style specifier the spec describes for an absolute path `s`:
`package` when the package-relative path equals the manifest's primary
entry point (or is empty), `package/submodule` otherwise.  Stated from the
spec's words, for comparison with `getSpecifierFromTypeImport`. -/
def npmSpecifierFor (env : TypesEnv) (s : String) : String :=
  let info := env.getPackageInfo s
  let modulePath := env.absoluteToPackage s info.rootDir
  let packageMain := info.module.orElse (fun _ => info.main)
  if packageMain = some modulePath then info.name
  else if modulePath = "" then info.name
  else info.name ++ "/" ++ modulePath

/-! ## `types.ts`: reference extraction from type syntax -/

mutual

/-- The `visit` callback of `getReferencesForTypeNode`, threading the
reference list and the appended diagnostics: a type-reference node resolves
its root name to a symbol in scope at `location` (diagnosing and skipping
the node's subtree when none is found); an import-type node requires a
string-literal specifier (diagnosing and skipping otherwise) and wraps the
normalized specifier into an import reference; children are visited
depth-first. -/
def visitTypeNode (env : TypesEnv) (location : Nat)
    (st : List Reference × List Diagnostic) (node : TypeNode) :
    List Reference × List Diagnostic :=
  match node with
  | TypeNode.typeReference typeName children =>
    let name := rootNameOf typeName
    match env.getSymbolForName name location with
    | none =>
      (st.1, st.2 ++ [createDiagnostic "Could not get symbol for name." none none])
    | some symbol =>
      let st1 :=
        match env.getReferenceForSymbol symbol location with
        | some ref => (st.1 ++ [ref], st.2)
        | none => st
      visitTypeNodeList env location st1 children
  | TypeNode.importTypeNode argument qualifier children =>
    match argument with
    | ImportArgument.nonLiteralType =>
      (st.1, st.2 ++ [createDiagnostic "Expected a string literal." none none])
    | ImportArgument.literalType literal =>
      let name := getRootName qualifier
      match literal with
      | LiteralExpr.otherLiteral =>
        (st.1,
          st.2 ++ [createDiagnostic "Expected import specifier to be a string literal" none none])
      | LiteralExpr.stringLiteralExpr text =>
        let specifier := getSpecifierFromTypeImport env text
        let st1 := (st.1 ++ [env.getImportReference specifier name], st.2)
        visitTypeNodeList env location st1 children
  | TypeNode.otherTypeNode children => visitTypeNodeList env location st children

/-- Depth-first visit of a node's children (`ts.forEachChild`). -/
def visitTypeNodeList (env : TypesEnv) (location : Nat)
    (st : List Reference × List Diagnostic) (nodes : List TypeNode) :
    List Reference × List Diagnostic :=
  match nodes with
  | [] => st
  | n :: rest => visitTypeNodeList env location (visitTypeNode env location st n) rest

end

/-- `getReferencesForTypeNode`: walk the type node's syntax tree collecting
references (the diagnostics appended during the walk are returned
alongside). -/
def getReferencesForTypeNode (env : TypesEnv) (typeNode : TypeNode) (location : Nat) :
    List Reference × List Diagnostic :=
  visitTypeNode env location ([], []) typeNode

/-! ## `types.ts`: the Type model and the two resolution contracts -/

/-- The analyzer `Type` model (named `TypeModel` here because `Type` is
reserved in Lean): the wrapped compiler type, its printable text, and its
reference sequence.  In the source the references are a lazily computed,
memoized pure function of the captured type node and location; since that
computation is pure, the embedding carries its value. -/
structure TypeModel where
  type : TsType
  text : String
  references : List Reference
deriving DecidableEq, Repr

/-- `getTypeForType`: widen literal types to their base type, print the
widened type, and convert it back to a type node for reference extraction;
when the checker cannot produce a type node, emit a warning and leave the
reference sequence permanently empty.  Returns the `Type` model together
with the diagnostics appended (those of the reference walk included, since
the lazy reference computation is pure). -/
def getTypeForType (env : TypesEnv) (type0 : TsType) (location : Nat) :
    TypeModel × List Diagnostic :=
  let type := getBaseTypeOfLiteralType type0
  let text := typeToString type
  match env.typeToTypeNode type with
  | none =>
    (⟨type, text, []⟩,
      [createDiagnostic "Could not convert type to type node"
        (some DiagnosticCategory.warning) none])
  | some typeNode =>
    let refs := getReferencesForTypeNode env typeNode location
    (⟨type, text, refs.1⟩, refs.2)

/-- `getTypeForNode`: resolve the checker-inferred type at a syntax
location, then convert it via `getTypeForType`. -/
def getTypeForNode (env : TypesEnv) (node : Nat) : TypeModel × List Diagnostic :=
  getTypeForType env (env.getTypeAtLocation node) node

/-! ## `types.ts`: the scratch compilation service -/

/-- The shared mutable state of the scratch compilation service: the single
synthetic source file's contents and the monotonically increasing version
counter. -/
structure ScratchState where
  contents : String
  contentsId : Nat
deriving DecidableEq, Repr

/-- `parseType`: rewrite the scratch buffer to
`export type typeToParse = <text>`, bump the version counter, re-parse, and
return the right-hand side of the (last) type alias found among the new
source file's top-level statements (`none` when no source file or no alias
is produced).  State-passing embedding of the mutable module-level
`contents` / `contentsId` pair. -/
def parseType (env : TypesEnv) (typeString : String) (st : ScratchState) :
    Option TypeNode × ScratchState :=
  let contents := "export type typeToParse = " ++ typeString
  let contentsId := st.contentsId + 1
  let sourceFile := env.parseSourceText contents
  let typeNode :=
    match sourceFile with
    | none => none
    | some statements =>
      statements.foldl
        (fun acc s =>
          match s with
          | TopLevelStatement.typeAliasDecl ty => some ty
          | TopLevelStatement.otherStatement => acc)
        none
  (typeNode, ⟨contents, contentsId⟩)

/-- `getTypeForTypeString`: parse the documentation type string in the
scratch service (diagnosing and returning `undefined` when it fails to
parse), resolve the parsed node against the main program's checker, and
wrap it as a `Type` whose text is the given type string.  (The source's
`typeString !== undefined` guard is vacuous for a present string and is
dropped.)  Returns the optional `Type`, the diagnostics appended, and the
scratch state after the call. -/
def getTypeForTypeString (env : TypesEnv) (typeString : String) (location : Nat)
    (st : ScratchState) : Option TypeModel × List Diagnostic × ScratchState :=
  match parseType env typeString st with
  | (none, st1) =>
    (none,
      [createDiagnostic "Failed to parse type from JSDoc comment."
        (some DiagnosticCategory.warning) none],
      st1)
  | (some typeNode, st1) =>
    let type := env.getTypeFromTypeNode typeNode
    let refs := getReferencesForTypeNode env typeNode location
    (some ⟨type, typeString, refs.1⟩, refs.2, st1)

/-! ## Member-extraction bookkeeping used to state the member-map claims -/

/-- Whether a member is a method implementation (a method declaration with a
body) of the given staticness and name — the members that `getClassMembers`
retains in its method maps. -/
def methodImplMatches (hasStat : Bool) (n : String) : ClassMember → Bool
  | ClassMember.methodDecl nm hasBody s _ => (hasBody && (s == hasStat)) && (nm.getText == n)
  | _ => false

/-- The key/value pair that `getClassMembers` inserts into the method map of
the given staticness for a member, when it inserts one. -/
def methodSel (hasStat : Bool) (node : ClassMember) : Option (String × ClassMethod) :=
  match node with
  | ClassMember.methodDecl nm hasBody s privacy =>
    if hasBody && (s == hasStat) then some (nm.getText, ⟨nm.getText, s, privacy⟩) else none
  | _ => none

/-- The key/value pair that `getClassMembers` inserts into the field map of
the given staticness for a member, when it inserts one. -/
def fieldSel (hasStat : Bool) (node : ClassMember) : Option (String × ClassField) :=
  match node with
  | ClassMember.propertyDecl (MemberName.ident text) s privacy initializer =>
    if s == hasStat then some (text, ⟨text, s, privacy, initializer⟩) else none
  | _ => none

/-- One map update driven by a selector: insert the selected pair, or leave
the map unchanged. -/
def stepOf {α : Type} (sel : ClassMember → Option (String × α))
    (m : List (String × α)) (node : ClassMember) : List (String × α) :=
  match sel node with
  | some kv => mapSet m kv.1 kv.2
  | none => m

/-- The diagnostics appended while processing a single member: the external
extraction calls' diagnostics for retained members, the UNSUPPORTED warning
for a non-identifier-named property, nothing otherwise. -/
def memberDiags (env : ClassesEnv) (node : ClassMember) : List Diagnostic :=
  match node with
  | ClassMember.methodDecl _ hasBody _ _ => if hasBody then env.extDiags node else []
  | ClassMember.propertyDecl (MemberName.ident _) _ _ _ => env.extDiags node
  | ClassMember.propertyDecl (MemberName.nonIdent _) _ _ _ => [unsupportedPropertyDiagnostic]
  | ClassMember.otherMember => []

/-- The diagnostics appended over a whole member list, in processing order. -/
def membersDiags (env : ClassesEnv) : List ClassMember → List Diagnostic
  | [] => []
  | node :: rest => memberDiags env node ++ membersDiags env rest

/-- The number of entries of an association list carrying the given key. -/
def countKey {α : Type} (m : List (String × α)) (k : String) : Nat :=
  m.countP (fun p => p.1 == k)

/-- Whether a diagnostic is a warning carrying the UNSUPPORTED code. -/
def isUnsupportedWarning (d : Diagnostic) : Bool :=
  (d.category == DiagnosticCategory.warning) && (d.code == some DiagnosticCode.UNSUPPORTED)

/-- The names of the identifier-named property declarations of the given
staticness, in declaration order (with multiplicity). -/
def identPropNames (hasStat : Bool) (members : List ClassMember) : List String :=
  members.filterMap (fun node => (fieldSel hasStat node).map Prod.fst)

/-- Whether a member is a property declaration whose name is not a plain
identifier. -/
def isNonIdentProp : ClassMember → Bool
  | ClassMember.propertyDecl (MemberName.nonIdent _) _ _ _ => true
  | _ => false

/-- The number of property declarations whose name is not a plain
identifier. -/
def nonIdentPropCount (members : List ClassMember) : Nat :=
  members.countP isNonIdentProp

/-! ## Concrete instances used by the witnesses -/

/-- A base class whose single base type is the ambient `HTMLElement`
interface. -/
def sampleBaseClass : TsNode :=
  TsNode.classDecl (some "Base") [] [] [some [TsNode.interfaceDecl "HTMLElement"]]

/-- A class extending `sampleBaseClass`, two inheritance levels away from
`HTMLElement`. -/
def sampleMidClass : TsNode :=
  TsNode.classDecl (some "Mid") [] [] [some [sampleBaseClass]]

/-- A quiet environment for the classes module: no resolvable references, no
external diagnostics. -/
def classesEnvA : ClassesEnv := ⟨fun _ => none, fun _ => []⟩

/-- A class declaration whose `extends` clause lists two type expressions. -/
def declC3 : ClassLikeDecl :=
  ⟨some "C", false, false,
    some [⟨HeritageToken.extendsKeyword, [⟨Expr.otherExpr⟩, ⟨Expr.otherExpr⟩]⟩], []⟩

/-- A class declaration with an overloaded method: one signature without a
body, one implementation. -/
def declC4 : ClassLikeDecl :=
  ⟨some "C", false, false, none,
    [ClassMember.methodDecl (MemberName.ident "foo") false false Privacy.pub,
     ClassMember.methodDecl (MemberName.ident "foo") true false Privacy.pub]⟩

/-- A class declaration with one computed-name property and one
identifier-named property. -/
def declC5 : ClassLikeDecl :=
  ⟨some "C", false, false, none,
    [ClassMember.propertyDecl (MemberName.nonIdent "computedKey") false Privacy.pub none,
     ClassMember.propertyDecl (MemberName.ident "bar") false Privacy.pub (some "1")]⟩

/-- A concrete environment for the types module: the checker reports the
string-literal type `"hi"` everywhere, the scratch parser yields one type
alias, and the package utilities describe a package `mypkg` rooted at
`/pkg` whose `main` entry is `index.js`. -/
def typesEnvA : TypesEnv :=
  ⟨fun _ => TsType.stringLiteralType "hi",
   fun _ => none,
   fun _ => TsType.stringLiteralType "hi",
   fun _ _ => none,
   fun _ _ => none,
   fun specifier name => ⟨name, some specifier⟩,
   fun _ => some [TopLevelStatement.typeAliasDecl (TypeNode.otherTypeNode [])],
   id,
   id,
   fun _ => ⟨"/pkg", "mypkg", some "index.js", none⟩,
   fun _ _ => "index.js"⟩

/-! ## Helper lemmas -/

theorem find?_eq_of_filter_eq_singleton {α : Type} (p : α → Bool) (l : List α) (a : α)
    (h : l.filter p = [a]) : l.find? p = some a := by
  induction l with
  | nil => simp at h
  | cons x xs ih =>
    by_cases hp : p x = true
    · rw [List.filter_cons_of_pos hp] at h
      obtain ⟨rfl, -⟩ := List.cons_eq_cons.mp h
      simp [List.find?_cons, hp]
    · rw [List.filter_cons_of_neg hp] at h
      rw [List.find?_cons_of_neg _ hp]
      exact ih h

theorem inherits_isCustomElementSubclass {d : TsNode} {n : Nat}
    (h : InheritsHTMLElement d n) : isCustomElementSubclass d = true := by
  induction h with
  | direct className jsdocTags siblings =>
    rw [isCustomElementSubclass]
    split
    · rfl
    · simp [anyBaseIsCustomElement, _isCustomElementClassDeclaration,
        anyDeclarationQualifies, isHTMLElementInterface]
  | level className jsdocTags siblings next n _ ih =>
    rw [isCustomElementSubclass]
    split
    · rfl
    · simp [anyBaseIsCustomElement, _isCustomElementClassDeclaration,
        anyDeclarationQualifies, ih]

/-! ## Claims about `custom-elements.ts` -/

/-- C1: for every class declaration whose only `extends` target is a class
that, transitively through `n ≥ 1` levels of inheritance, extends the
ambient `HTMLElement` interface, `isCustomElementSubclass` returns true, for
`n` up to any finite depth. -/
theorem claim_C1 (className : Option String) (jsdocTags : List JSDocTag)
    (siblings : List Statement) (target : TsNode) (n : Nat)
    (h : InheritsHTMLElement target n) :
    isCustomElementSubclass
      (TsNode.classDecl className jsdocTags siblings [some [target]]) = true := by
  have ht := inherits_isCustomElementSubclass h
  rw [isCustomElementSubclass]
  split
  · rfl
  · simp [anyBaseIsCustomElement, _isCustomElementClassDeclaration,
      anyDeclarationQualifies, ht]

/-- Witness for C1 at a chain of depth 2: `El extends Mid extends Base
extends HTMLElement`. -/
theorem claim_C1_witness :
    InheritsHTMLElement sampleMidClass 2 ∧
    isCustomElementSubclass (TsNode.classDecl (some "El") [] [] [some [sampleMidClass]]) = true :=
  ⟨InheritsHTMLElement.level _ _ _ _ _ (InheritsHTMLElement.direct _ _ _),
   claim_C1 (some "El") [] [] sampleMidClass 2
     (InheritsHTMLElement.level _ _ _ _ _ (InheritsHTMLElement.direct _ _ _))⟩

/-- C2: when the class's `@customElement` documentation tag (the unique
JSDoc tag whose name lowercases to `customelement`) has a plain string
comment, `getTagName` returns that comment trimmed, even when a sibling
`customElements.define` call disagrees: the documentation tag wins. -/
theorem claim_C2 (className : Option String) (jsdocTags : List JSDocTag)
    (siblings : List Statement) (baseTypes : List (Option (List TsNode)))
    (tag : JSDocTag) (s defineName : String)
    (hfilter : jsdocTags.filter (fun t => jsToLowerCase t.tagName == "customelement") = [tag])
    (hcomment : tag.comment = some (JSDocComment.str s))
    (hdefine : scanDefines className siblings = some defineName)
    (hdisagree : defineName ≠ jsTrim s) :
    getTagName (TsNode.classDecl className jsdocTags siblings baseTypes) = some (jsTrim s) := by
  have hfind := find?_eq_of_filter_eq_singleton _ _ _ hfilter
  obtain ⟨tagName, comment⟩ := tag
  simp only at hcomment
  subst hcomment
  simp [getTagName, hfind]

/-- Witness for C2: `@customElement " x-doc "` beats a sibling
`customElements.define('x-imp', XFoo)`. -/
theorem claim_C2_witness :
    scanDefines (some "XFoo")
        [Statement.exprCallStmt (Expr.ident "customElements") (Expr.ident "define")
          [Expr.strLit "x-imp", Expr.ident "XFoo"]] = some "x-imp" ∧
    getTagName
        (TsNode.classDecl (some "XFoo")
          [⟨"customElement", some (JSDocComment.str " x-doc ")⟩]
          [Statement.exprCallStmt (Expr.ident "customElements") (Expr.ident "define")
            [Expr.strLit "x-imp", Expr.ident "XFoo"]]
          []) = some "x-doc" := by
  have h := claim_C2 (some "XFoo")
    [⟨"customElement", some (JSDocComment.str " x-doc ")⟩]
    [Statement.exprCallStmt (Expr.ident "customElements") (Expr.ident "define")
      [Expr.strLit "x-imp", Expr.ident "XFoo"]]
    [] ⟨"customElement", some (JSDocComment.str " x-doc ")⟩ " x-doc " "x-imp"
    (by decide) rfl (by decide) (by decide)
  refine ⟨by decide, ?_⟩
  rw [h]
  decide

/-- C10: the `@customElement` documentation tag is matched
case-insensitively — when the class's unique JSDoc tag whose name equals
`customelement` under lowercase comparison has a plain string comment,
`getTagName` returns that comment trimmed of surrounding whitespace. -/
theorem claim_C10 (className : Option String) (jsdocTags : List JSDocTag)
    (siblings : List Statement) (baseTypes : List (Option (List TsNode)))
    (tag : JSDocTag) (s : String)
    (hfilter : jsdocTags.filter (fun t => jsToLowerCase t.tagName == "customelement") = [tag])
    (hlower : jsToLowerCase tag.tagName = "customelement")
    (hcomment : tag.comment = some (JSDocComment.str s)) :
    getTagName (TsNode.classDecl className jsdocTags siblings baseTypes) = some (jsTrim s) := by
  have hfind := find?_eq_of_filter_eq_singleton _ _ _ hfilter
  obtain ⟨tagName, comment⟩ := tag
  simp only at hcomment
  subst hcomment
  simp [getTagName, hfind]

/-- Witness for C10 at the mixed-case tag `@CustomElement " x-foo "`. -/
theorem claim_C10_witness :
    jsToLowerCase "CustomElement" = "customelement" ∧
    getTagName
        (TsNode.classDecl (some "XFoo")
          [⟨"CustomElement", some (JSDocComment.str " x-foo ")⟩] [] []) = some "x-foo" := by
  have h := claim_C10 (some "XFoo")
    [⟨"CustomElement", some (JSDocComment.str " x-foo ")⟩] [] []
    ⟨"CustomElement", some (JSDocComment.str " x-foo ")⟩ " x-foo "
    (by decide) (by decide) rfl
  refine ⟨by decide, ?_⟩
  rw [h]
  decide

/-! ## Claims about `javascript/classes.ts`: heritage and declaration info -/

/-- C3: for every class declaration whose `extends` clause lists exactly two
type expressions, `getHeritage` returns an absent superclass with an empty
mixin list and emits exactly one diagnostic. -/
theorem claim_C3 (env : ClassesEnv) (declaration : ClassLikeDecl)
    (clause : HeritageClause) (t1 t2 : ExpressionWithTypeArgs)
    (hfind : declaration.heritageClauses.bind
        (fun cs => cs.find? (fun c => c.token == HeritageToken.extendsKeyword)) = some clause)
    (htypes : clause.types = [t1, t2]) :
    (getHeritage env declaration).1 = ⟨none, []⟩ ∧
    (getHeritage env declaration).2.length = 1 := by
  obtain ⟨token, types⟩ := clause
  simp only at htypes
  subst htypes
  simp [getHeritage, hfind]

/-- Witness for C3 at a concrete two-type `extends` clause. -/
theorem claim_C3_witness :
    (getHeritage classesEnvA declC3).1 = ⟨none, []⟩ ∧
    (getHeritage classesEnvA declC3).2.length = 1 :=
  claim_C3 classesEnvA declC3
    ⟨HeritageToken.extendsKeyword, [⟨Expr.otherExpr⟩, ⟨Expr.otherExpr⟩]⟩
    ⟨Expr.otherExpr⟩ ⟨Expr.otherExpr⟩ (by decide) rfl

/-- Counterexample to C6 as stated: for the unnamed, non-default-export
class declaration `class { }`, a diagnostic is appended and yet no
declaration info (hence no declaration model) is produced —
`getClassDeclarationInfo` returns `undefined`. -/
theorem claim_C6_cex :
    (getClassDeclarationInfo ⟨none, false, false, none, []⟩).1 = none ∧
    (getClassDeclarationInfo ⟨none, false, false, none, []⟩).2.length = 1 := by
  decide

/-- C6 (amended): declaration-info extraction is total and yields `none`
exactly for unnamed, non-default-export class declarations — in that case
it appends exactly one diagnostic and produces no declaration model; every
named or default-export class yields info (name falling back to
`"default"`) with no diagnostic. -/
theorem claim_C6 (declaration : ClassLikeDecl) :
    ((getClassDeclarationInfo declaration).1 = none ↔
      declaration.name = none ∧ declaration.hasDefault = false) ∧
    (getClassDeclarationInfo declaration).2.length =
      (if declaration.name = none ∧ declaration.hasDefault = false then 1 else 0) := by
  obtain ⟨name, hasDefault, hasExport, hc, ms⟩ := declaration
  cases name <;> cases hasDefault <;>
    simp [getClassDeclarationInfo, getClassDeclarationName]

/-! ## Claims about `types.ts` -/

/-- Counterexample to C7 as stated: `getTypeForTypeString` does not widen
literal types — resolving the documentation type string `"hi"` (a string
literal type) yields a `Type` whose text is the literal itself, not
`string`. -/
theorem claim_C7_cex :
    ((getTypeForTypeString typesEnvA "\"hi\"" 0 ⟨"", 0⟩).1.map TypeModel.text =
      some "\"hi\"") ∧
    ("\"hi\"" ≠ "string") := by
  constructor
  · rfl
  · decide

/-- C7 (amended): literal widening applies to the syntax-location contract —
`getTypeForNode` (via `getTypeForType`) reports a string-literal-typed node
as `string` — while `getTypeForTypeString` uses the given documentation
type string verbatim as the resulting `Type`'s text. -/
theorem claim_C7 (env : TypesEnv) (location : Nat) (v typeString : String)
    (st : ScratchState)
    (h : env.getTypeAtLocation location = TsType.stringLiteralType v) :
    (getTypeForNode env location).1.text = "string" ∧
    ((getTypeForTypeString env typeString location st).1.map TypeModel.text =
      (getTypeForTypeString env typeString location st).1.map (fun _ => typeString)) := by
  constructor
  · rcases h2 : env.typeToTypeNode (TsType.otherType "string") with _ | tn <;>
      simp [getTypeForNode, getTypeForType, h, getBaseTypeOfLiteralType, typeToString, h2]
  · rcases hq : parseType env typeString st with ⟨tn, st1⟩
    cases tn <;> simp [getTypeForTypeString, hq]

/-- Witness for C7 at the concrete environment `typesEnvA`, whose checker
reports the string-literal type `"hi"` at every location. -/
theorem claim_C7_witness :
    (getTypeForNode typesEnvA 0).1.text = "string" ∧
    ((getTypeForTypeString typesEnvA "\"hi\"" 0 ⟨"", 0⟩).1.map TypeModel.text =
      (getTypeForTypeString typesEnvA "\"hi\"" 0 ⟨"", 0⟩).1.map (fun _ => "\"hi\"")) :=
  claim_C7 typesEnvA 0 "hi" "\"hi\"" ⟨"", 0⟩ rfl

/-- C8: resolving the same type string twice in a row (same location, same
environment) yields the same optional `Type` — identical text and
value-identical reference sequences — although the scratch buffer is
mutated and re-parsed between the calls (the version counter increases). -/
theorem claim_C8 (env : TypesEnv) (typeString : String) (location : Nat)
    (st : ScratchState) :
    ((getTypeForTypeString env typeString location
        (getTypeForTypeString env typeString location st).2.2).1.map TypeModel.text =
      (getTypeForTypeString env typeString location st).1.map TypeModel.text) ∧
    ((getTypeForTypeString env typeString location
        (getTypeForTypeString env typeString location st).2.2).1.map TypeModel.references =
      (getTypeForTypeString env typeString location st).1.map TypeModel.references) ∧
    ((getTypeForTypeString env typeString location
        (getTypeForTypeString env typeString location st).2.2).2.2.contentsId =
      (getTypeForTypeString env typeString location st).2.2.contentsId + 1) := by
  have hfst : ∀ stA stB : ScratchState,
      (getTypeForTypeString env typeString location stA).1 =
        (getTypeForTypeString env typeString location stB).1 := by
    intro stA stB
    have hp : (parseType env typeString stA).1 = (parseType env typeString stB).1 := rfl
    rcases hA : parseType env typeString stA with ⟨tnA, sA⟩
    rcases hB : parseType env typeString stB with ⟨tnB, sB⟩
    rw [hA, hB] at hp
    simp only at hp
    subst hp
    cases tnA <;> simp [getTypeForTypeString, hA, hB]
  have hstate : ∀ stA : ScratchState,
      (getTypeForTypeString env typeString location stA).2.2 =
        ⟨"export type typeToParse = " ++ typeString, stA.contentsId + 1⟩ := by
    intro stA
    have hp : (parseType env typeString stA).2 =
        ⟨"export type typeToParse = " ++ typeString, stA.contentsId + 1⟩ := rfl
    rcases hA : parseType env typeString stA with ⟨tnA, sA⟩
    rw [hA] at hp
    simp only at hp
    subst hp
    cases tnA <;> simp [getTypeForTypeString, hA]
  refine ⟨congrArg (Option.map TypeModel.text) (hfst _ _),
    congrArg (Option.map TypeModel.references) (hfst _ _), ?_⟩
  rw [hstate, hstate]

theorem isAbsolute_append_left (a b : String) (h1 : a ≠ "") (h2 : isAbsolute a = false) :
    isAbsolute (a ++ b) = false := by
  obtain ⟨la⟩ := a
  obtain ⟨lb⟩ := b
  cases la with
  | nil => exact absurd rfl h1
  | cons c cs =>
    simp only [isAbsolute] at h2 ⊢
    exact h2

theorem specifier_formula (name mp : String) (pm : Option String) :
    name ++
        (if (if pm.isSome && pm == some mp then "" else mp) == "" then ""
          else "/" ++ (if pm.isSome && pm == some mp then "" else mp)) =
      (if pm = some mp then name else if mp = "" then name else name ++ "/" ++ mp) := by
  by_cases h1 : pm = some mp
  · simp [h1]
  · have hb : (pm == some mp) = false := by simp [h1]
    by_cases h2 : mp = ""
    · simp [h1, h2, hb]
    · have hb2 : (mp == "") = false := by simp [h2]
      simp [h1, h2, hb, hb2, String.append_assoc]

theorem getSpecifier_eq_npm (env : TypesEnv) (specifier0 : String)
    (habs : isAbsolute (env.normalize (env.resolveExtension specifier0)) = true) :
    getSpecifierFromTypeImport env specifier0 =
      npmSpecifierFor env (env.normalize (env.resolveExtension specifier0)) := by
  simp only [getSpecifierFromTypeImport, npmSpecifierFor, habs, if_true]
  exact specifier_formula _ _ _

/-- C9: an import-type specifier that (after extension resolution and
normalization) is an absolute filesystem path is converted to the npm-style
`package[/submodule]` specifier derived from the nearest package manifest —
collapsing to the bare package name when the package-relative path equals
the manifest's primary entry point (`module`, falling back to `main`) — and
the resulting specifier is never an absolute path (assuming manifest
package names are nonempty and not absolute). -/
theorem claim_C9 (env : TypesEnv) (specifier0 : String)
    (hname : ∀ p : String, isAbsolute (env.getPackageInfo p).name = false ∧
      (env.getPackageInfo p).name ≠ "") :
    (isAbsolute (env.normalize (env.resolveExtension specifier0)) = true →
      getSpecifierFromTypeImport env specifier0 =
        npmSpecifierFor env (env.normalize (env.resolveExtension specifier0))) ∧
    isAbsolute (getSpecifierFromTypeImport env specifier0) = false := by
  refine ⟨getSpecifier_eq_npm env specifier0, ?_⟩
  cases hco : isAbsolute (env.normalize (env.resolveExtension specifier0)) with
  | false =>
    have hres : getSpecifierFromTypeImport env specifier0 =
        env.normalize (env.resolveExtension specifier0) := by
      simp [getSpecifierFromTypeImport, hco]
    rw [hres]
    exact hco
  | true =>
    rw [getSpecifier_eq_npm env specifier0 hco]
    obtain ⟨h1, h2⟩ := hname (env.normalize (env.resolveExtension specifier0))
    unfold npmSpecifierFor
    dsimp only
    split
    · exact h1
    · split
      · exact h1
      · rw [String.append_assoc]
        exact isAbsolute_append_left _ _ h2 h1

/-- Witness for C9: the absolute path `/pkg/index.js` collapses to the bare
package name `mypkg` (it equals the manifest's `main` entry), which is not
an absolute path. -/
theorem claim_C9_witness :
    isAbsolute (typesEnvA.normalize (typesEnvA.resolveExtension "/pkg/index.js")) = true ∧
    getSpecifierFromTypeImport typesEnvA "/pkg/index.js" = "mypkg" ∧
    isAbsolute (getSpecifierFromTypeImport typesEnvA "/pkg/index.js") = false := by
  have hname : ∀ p : String, isAbsolute (typesEnvA.getPackageInfo p).name = false ∧
      (typesEnvA.getPackageInfo p).name ≠ "" := by
    intro p
    refine ⟨rfl, ?_⟩
    show ("mypkg" : String) ≠ ""
    decide
  have h := claim_C9 typesEnvA "/pkg/index.js" hname
  refine ⟨by decide, ?_, h.2⟩
  have h2 := h.1 (by decide)
  rw [h2]
  decide

/-! ## Association-list lemmas for the member maps -/

theorem any_key_iff {α : Type} (m : List (String × α)) (k : String) :
    m.any (fun p => p.1 == k) = true ↔ k ∈ m.map Prod.fst := by
  rw [List.any_eq_true]
  constructor
  · rintro ⟨p, hp, hpk⟩
    rw [beq_iff_eq] at hpk
    exact List.mem_map.mpr ⟨p, hp, hpk⟩
  · intro h
    obtain ⟨p, hp, hpk⟩ := List.mem_map.mp h
    exact ⟨p, hp, by rw [beq_iff_eq]; exact hpk⟩

theorem keys_mapSet_of_mem {α : Type} (m : List (String × α)) (k : String) (v : α)
    (h : k ∈ m.map Prod.fst) : (mapSet m k v).map Prod.fst = m.map Prod.fst := by
  have hc : m.any (fun p => p.1 == k) = true := (any_key_iff m k).mpr h
  simp only [mapSet, hc, if_true, List.map_map]
  apply List.map_congr_left
  intro p _
  by_cases hp : p.1 = k
  · simp [hp]
  · simp [hp]

theorem keys_mapSet_of_not_mem {α : Type} (m : List (String × α)) (k : String) (v : α)
    (h : k ∉ m.map Prod.fst) : (mapSet m k v).map Prod.fst = m.map Prod.fst ++ [k] := by
  have hc : m.any (fun p => p.1 == k) = false := by
    rw [← Bool.not_eq_true]
    intro hx
    exact h ((any_key_iff m k).mp hx)
  simp [mapSet, hc]

theorem mem_keys_mapSet {α : Type} (m : List (String × α)) (k : String) (v : α)
    (a : String) : a ∈ (mapSet m k v).map Prod.fst ↔ a ∈ m.map Prod.fst ∨ a = k := by
  by_cases h : k ∈ m.map Prod.fst
  · rw [keys_mapSet_of_mem m k v h]
    constructor
    · exact Or.inl
    · rintro (ha | rfl)
      · exact ha
      · exact h
  · rw [keys_mapSet_of_not_mem m k v h]
    simp

theorem nodup_keys_mapSet {α : Type} (m : List (String × α)) (k : String) (v : α)
    (h : (m.map Prod.fst).Nodup) : ((mapSet m k v).map Prod.fst).Nodup := by
  by_cases hk : k ∈ m.map Prod.fst
  · rw [keys_mapSet_of_mem m k v hk]
    exact h
  · rw [keys_mapSet_of_not_mem m k v hk]
    simp [List.nodup_append, h, hk]

theorem length_mapSet {α : Type} (m : List (String × α)) (k : String) (v : α) :
    (mapSet m k v).length = if k ∈ m.map Prod.fst then m.length else m.length + 1 := by
  have h1 : (mapSet m k v).length = ((mapSet m k v).map Prod.fst).length := by
    rw [List.length_map]
  by_cases hk : k ∈ m.map Prod.fst
  · rw [h1, keys_mapSet_of_mem m k v hk, if_pos hk, List.length_map]
  · rw [h1, keys_mapSet_of_not_mem m k v hk, if_neg hk, List.length_append,
      List.length_map]
    rfl

theorem exists_pair_mem_iff_mem_keys {α : Type} (m : List (String × α)) (n : String) :
    (∃ v, (n, v) ∈ m) ↔ n ∈ m.map Prod.fst := by
  constructor
  · rintro ⟨v, hv⟩
    exact List.mem_map.mpr ⟨(n, v), hv, rfl⟩
  · intro h
    obtain ⟨⟨a, b⟩, hab, he⟩ := List.mem_map.mp h
    cases he
    exact ⟨b, hab⟩

/-! ## Fold lemmas for the selector-driven map updates -/

theorem mem_keys_foldl_stepOf {α : Type} (sel : ClassMember → Option (String × α))
    (ms : List ClassMember) (m0 : List (String × α)) (a : String) :
    a ∈ ((ms.foldl (stepOf sel) m0).map Prod.fst) ↔
      a ∈ m0.map Prod.fst ∨ ∃ node ∈ ms, ∃ v, sel node = some (a, v) := by
  induction ms generalizing m0 with
  | nil => simp
  | cons node rest ih =>
    rw [List.foldl_cons, ih]
    cases hsel : sel node with
    | none =>
      simp only [stepOf, hsel, List.mem_cons]
      constructor
      · rintro (h | h)
        · exact Or.inl h
        · exact Or.inr (by obtain ⟨nd, hnd, hv⟩ := h; exact ⟨nd, Or.inr hnd, hv⟩)
      · rintro (h | ⟨nd, hnd | hnd, hv⟩)
        · exact Or.inl h
        · subst hnd
          obtain ⟨v, hv⟩ := hv
          rw [hsel] at hv
          cases hv
        · exact Or.inr ⟨nd, hnd, hv⟩
    | some kv =>
      obtain ⟨k, v⟩ := kv
      simp only [stepOf, hsel, mem_keys_mapSet, List.mem_cons]
      constructor
      · rintro ((h | rfl) | h)
        · exact Or.inl h
        · exact Or.inr ⟨node, Or.inl rfl, v, hsel⟩
        · obtain ⟨nd, hnd, hv⟩ := h
          exact Or.inr ⟨nd, Or.inr hnd, hv⟩
      · rintro (h | ⟨nd, hnd | hnd, w, hw⟩)
        · exact Or.inl (Or.inl h)
        · subst hnd
          rw [hsel] at hw
          cases hw
          exact Or.inl (Or.inr rfl)
        · exact Or.inr ⟨nd, hnd, w, hw⟩

theorem nodup_keys_foldl_stepOf {α : Type} (sel : ClassMember → Option (String × α))
    (ms : List ClassMember) (m0 : List (String × α))
    (h : (m0.map Prod.fst).Nodup) : ((ms.foldl (stepOf sel) m0).map Prod.fst).Nodup := by
  induction ms generalizing m0 with
  | nil => exact h
  | cons node rest ih =>
    rw [List.foldl_cons]
    cases hsel : sel node with
    | none =>
      simp only [stepOf, hsel]
      exact ih m0 h
    | some kv =>
      simp only [stepOf, hsel]
      exact ih _ (nodup_keys_mapSet _ _ _ h)

theorem length_foldl_stepOf {α : Type} (sel : ClassMember → Option (String × α))
    (ms : List ClassMember) (m0 : List (String × α))
    (h : (m0.map Prod.fst ++ ms.filterMap (fun node => (sel node).map Prod.fst)).Nodup) :
    (ms.foldl (stepOf sel) m0).length =
      m0.length + (ms.filterMap (fun node => (sel node).map Prod.fst)).length := by
  induction ms generalizing m0 with
  | nil => simp
  | cons node rest ih =>
    rw [List.foldl_cons]
    cases hsel : sel node with
    | none =>
      have hcons : (node :: rest).filterMap (fun nd => (sel nd).map Prod.fst) =
          rest.filterMap (fun nd => (sel nd).map Prod.fst) := by
        rw [List.filterMap_cons]
        simp [hsel]
      rw [hcons] at h ⊢
      simp only [stepOf, hsel]
      exact ih m0 h
    | some kv =>
      obtain ⟨k, v⟩ := kv
      have hcons : (node :: rest).filterMap (fun nd => (sel nd).map Prod.fst) =
          k :: rest.filterMap (fun nd => (sel nd).map Prod.fst) := by
        rw [List.filterMap_cons]
        simp [hsel]
      rw [hcons] at h ⊢
      have hk : k ∉ m0.map Prod.fst := by
        intro hmem
        have hdisj := List.disjoint_of_nodup_append h
        exact hdisj hmem (List.mem_cons_self k _)
      simp only [stepOf, hsel]
      have hlen := length_mapSet m0 k v
      rw [if_neg hk] at hlen
      have hrec := ih (mapSet m0 k v) (by
        rw [keys_mapSet_of_not_mem m0 k v hk, List.append_assoc, List.singleton_append]
        exact h)
      rw [hrec, hlen, List.length_cons]
      omega

theorem countKey_eq_count_keys {α : Type} (m : List (String × α)) (k : String) :
    countKey m k = (m.map Prod.fst).count k := by
  rw [countKey, List.count, List.countP_map]
  rfl

theorem countKey_le_one_of_nodup {α : Type} (m : List (String × α)) (k : String)
    (h : (m.map Prod.fst).Nodup) : countKey m k ≤ 1 := by
  rw [countKey_eq_count_keys]
  exact List.nodup_iff_count_le_one.mp h k

theorem countKey_eq_one_of_mem_nodup {α : Type} (m : List (String × α)) (k : String)
    (h : (m.map Prod.fst).Nodup) (hm : k ∈ m.map Prod.fst) : countKey m k = 1 := by
  rw [countKey_eq_count_keys]
  have h1 := List.nodup_iff_count_le_one.mp h k
  have h2 : 0 < (m.map Prod.fst).count k := List.count_pos_iff.mpr hm
  omega

/-! ## The `getClassMembers` fold decomposed into the four maps -/

theorem foldl_processMember_eq (env : ClassesEnv) (ms : List ClassMember)
    (st : ClassMembersResult) :
    ms.foldl (processMember env) st =
      ⟨ms.foldl (stepOf (fieldSel false)) st.fieldMap,
       ms.foldl (stepOf (fieldSel true)) st.staticFieldMap,
       ms.foldl (stepOf (methodSel false)) st.methodMap,
       ms.foldl (stepOf (methodSel true)) st.staticMethodMap,
       st.diags ++ membersDiags env ms⟩ := by
  induction ms generalizing st with
  | nil => simp [membersDiags]
  | cons node rest ih =>
    rw [List.foldl_cons, ih]
    have hstep : processMember env st node =
        ⟨stepOf (fieldSel false) st.fieldMap node,
         stepOf (fieldSel true) st.staticFieldMap node,
         stepOf (methodSel false) st.methodMap node,
         stepOf (methodSel true) st.staticMethodMap node,
         st.diags ++ memberDiags env node⟩ := by
      cases node with
      | methodDecl nm hasBody hasStat privacy =>
        cases hasBody <;> cases hasStat <;>
          simp [processMember, stepOf, fieldSel, methodSel, memberDiags]
      | propertyDecl nm hasStat privacy initializer =>
        cases nm <;> cases hasStat <;>
          simp [processMember, stepOf, fieldSel, methodSel, memberDiags]
      | otherMember =>
        simp [processMember, stepOf, fieldSel, methodSel, memberDiags]
    rw [hstep, membersDiags]
    simp [List.append_assoc]

theorem getClassMembers_eq (env : ClassesEnv) (declaration : ClassLikeDecl) :
    getClassMembers env declaration =
      ⟨declaration.members.foldl (stepOf (fieldSel false)) [],
       declaration.members.foldl (stepOf (fieldSel true)) [],
       declaration.members.foldl (stepOf (methodSel false)) [],
       declaration.members.foldl (stepOf (methodSel true)) [],
       membersDiags env declaration.members⟩ := by
  rw [getClassMembers, foldl_processMember_eq]
  rfl

theorem methodSel_some_iff (b : Bool) (n : String) (node : ClassMember) :
    (∃ v, methodSel b node = some (n, v)) ↔ methodImplMatches b n node = true := by
  cases node with
  | methodDecl nm hasBody s privacy =>
    cases hc : hasBody && (s == b) with
    | false => simp [methodSel, methodImplMatches, hc]
    | true =>
      have hsel : methodSel b (ClassMember.methodDecl nm hasBody s privacy) =
          some (nm.getText, ⟨nm.getText, s, privacy⟩) := by
        simp [methodSel, hc]
      constructor
      · rintro ⟨v, hv⟩
        rw [hsel, Option.some.injEq, Prod.mk.injEq] at hv
        obtain ⟨h1, -⟩ := hv
        simp [methodImplMatches, hc, h1]
      · intro hmatch
        have h1 : nm.getText = n := by
          simp [methodImplMatches, hc] at hmatch
          exact hmatch
        refine ⟨⟨nm.getText, s, privacy⟩, ?_⟩
        rw [hsel, h1]
  | propertyDecl nm s privacy initializer => simp [methodSel, methodImplMatches]
  | otherMember => simp [methodSel, methodImplMatches]

theorem mem_identPropNames_iff (b : Bool) (ms : List ClassMember) (n : String) :
    n ∈ identPropNames b ms ↔ ∃ node ∈ ms, ∃ v, fieldSel b node = some (n, v) := by
  rw [identPropNames]
  constructor
  · intro h
    obtain ⟨nd, hnd, he⟩ := List.mem_filterMap.mp h
    obtain ⟨⟨k, v⟩, hkv, hfst⟩ := Option.map_eq_some'.mp he
    cases hfst
    exact ⟨nd, hnd, v, hkv⟩
  · rintro ⟨nd, hnd, v, hv⟩
    refine List.mem_filterMap.mpr ⟨nd, hnd, ?_⟩
    rw [hv]
    rfl

theorem countP_membersDiags (env : ClassesEnv) (ms : List ClassMember)
    (henv : ∀ node : ClassMember, ∀ d ∈ env.extDiags node, isUnsupportedWarning d = false) :
    (membersDiags env ms).countP isUnsupportedWarning = nonIdentPropCount ms := by
  have hext : ∀ node2 : ClassMember,
      (env.extDiags node2).countP isUnsupportedWarning = 0 := by
    intro node2
    rw [List.countP_eq_zero]
    intro d hd
    simp [henv node2 d hd]
  induction ms with
  | nil => simp [membersDiags, nonIdentPropCount]
  | cons node rest ih =>
    rw [membersDiags, List.countP_append, ih]
    have hnode : (memberDiags env node).countP isUnsupportedWarning =
        (if isNonIdentProp node then 1 else 0) := by
      cases node with
      | methodDecl nm hasBody s privacy =>
        cases hasBody <;> simp [memberDiags, hext, isNonIdentProp]
      | propertyDecl nm s privacy initializer =>
        cases nm with
        | ident text => simp [memberDiags, hext, isNonIdentProp]
        | nonIdent text =>
          simp only [memberDiags, isNonIdentProp, if_pos, List.countP_cons,
            List.countP_nil]
          decide
      | otherMember => simp [memberDiags, isNonIdentProp]
    rw [hnode, nonIdentPropCount, nonIdentPropCount, List.countP_cons]
    omega

/-! ## Claims about `javascript/classes.ts`: member extraction -/

/-- C4: `getClassMembers` never places a method declaration lacking an
implementation body into either method map — every entry of a method map
comes from a method implementation of that name and staticness — and for an
overloaded method (at least one implementation present) exactly one entry
exists under that name. -/
theorem claim_C4 (env : ClassesEnv) (declaration : ClassLikeDecl) (n : String) :
    (countKey (getClassMembers env declaration).methodMap n ≤ 1 ∧
     countKey (getClassMembers env declaration).staticMethodMap n ≤ 1) ∧
    ((∃ method, (n, method) ∈ (getClassMembers env declaration).methodMap) ↔
      ∃ node ∈ declaration.members, methodImplMatches false n node = true) ∧
    ((∃ method, (n, method) ∈ (getClassMembers env declaration).staticMethodMap) ↔
      ∃ node ∈ declaration.members, methodImplMatches true n node = true) ∧
    ((∃ node ∈ declaration.members, methodImplMatches false n node = true) →
      countKey (getClassMembers env declaration).methodMap n = 1) ∧
    ((∃ node ∈ declaration.members, methodImplMatches true n node = true) →
      countKey (getClassMembers env declaration).staticMethodMap n = 1) := by
  rw [getClassMembers_eq]
  dsimp only
  have hnodup1 := nodup_keys_foldl_stepOf (methodSel false) declaration.members []
    (by simp)
  have hnodup2 := nodup_keys_foldl_stepOf (methodSel true) declaration.members []
    (by simp)
  have hmem : ∀ (b : Bool),
      n ∈ ((declaration.members.foldl (stepOf (methodSel b)) []).map Prod.fst) ↔
        ∃ node ∈ declaration.members, methodImplMatches b n node = true := by
    intro b
    rw [mem_keys_foldl_stepOf]
    simp only [List.map_nil, List.not_mem_nil, false_or]
    exact exists_congr fun node => and_congr_right fun _ => methodSel_some_iff b n node
  refine ⟨⟨countKey_le_one_of_nodup _ _ hnodup1, countKey_le_one_of_nodup _ _ hnodup2⟩,
    ?_, ?_, ?_, ?_⟩
  · rw [exists_pair_mem_iff_mem_keys]
    exact hmem false
  · rw [exists_pair_mem_iff_mem_keys]
    exact hmem true
  · intro hex
    exact countKey_eq_one_of_mem_nodup _ _ hnodup1 ((hmem false).mpr hex)
  · intro hex
    exact countKey_eq_one_of_mem_nodup _ _ hnodup2 ((hmem true).mpr hex)

/-- Witness for C4: an overloaded method `foo` (one bodyless signature, one
implementation) yields exactly one `foo` entry in the instance method map. -/
theorem claim_C4_witness :
    (∃ node ∈ declC4.members, methodImplMatches false "foo" node = true) ∧
    countKey (getClassMembers classesEnvA declC4).methodMap "foo" = 1 := by
  have h := claim_C4 classesEnvA declC4 "foo"
  have hex : ∃ node ∈ declC4.members, methodImplMatches false "foo" node = true := by
    decide
  exact ⟨hex, h.2.2.2.1 hex⟩

/-- C5: every property declaration whose name is not a plain identifier
contributes exactly one UNSUPPORTED-coded warning diagnostic and no entry to
either field map: assuming the identifier-named property names of each
staticness are distinct (the data model keys members by unique name) and
the external per-member extraction calls never emit UNSUPPORTED-coded
warnings, each field-map size equals the count of identifier-named property
declarations of the corresponding staticness, the number of
UNSUPPORTED-coded warnings equals the count of non-identifier-named
property declarations, and every field-map key names an identifier-named
property. -/
theorem claim_C5 (env : ClassesEnv) (declaration : ClassLikeDecl)
    (hnodup : (identPropNames false declaration.members).Nodup)
    (hnodupS : (identPropNames true declaration.members).Nodup)
    (henv : ∀ node : ClassMember, ∀ d ∈ env.extDiags node, isUnsupportedWarning d = false) :
    (getClassMembers env declaration).fieldMap.length =
      (identPropNames false declaration.members).length ∧
    (getClassMembers env declaration).staticFieldMap.length =
      (identPropNames true declaration.members).length ∧
    (getClassMembers env declaration).diags.countP isUnsupportedWarning =
      nonIdentPropCount declaration.members ∧
    (∀ nm fld, (nm, fld) ∈ (getClassMembers env declaration).fieldMap →
      nm ∈ identPropNames false declaration.members) ∧
    (∀ nm fld, (nm, fld) ∈ (getClassMembers env declaration).staticFieldMap →
      nm ∈ identPropNames true declaration.members) := by
  rw [getClassMembers_eq]
  dsimp only
  have hkey : ∀ (b : Bool) (nm : String) (fld : ClassField),
      (nm, fld) ∈ declaration.members.foldl (stepOf (fieldSel b)) [] →
        nm ∈ identPropNames b declaration.members := by
    intro b nm fld hmem
    have hk : nm ∈ ((declaration.members.foldl (stepOf (fieldSel b)) []).map Prod.fst) :=
      List.mem_map.mpr ⟨(nm, fld), hmem, rfl⟩
    rw [mem_keys_foldl_stepOf] at hk
    rcases hk with hk | hk
    · simp at hk
    · exact (mem_identPropNames_iff b declaration.members nm).mpr hk
  refine ⟨?_, ?_, ?_, hkey false, hkey true⟩
  · have h := length_foldl_stepOf (fieldSel false) declaration.members []
      (by simpa [identPropNames] using hnodup)
    simpa [identPropNames] using h
  · have h := length_foldl_stepOf (fieldSel true) declaration.members []
      (by simpa [identPropNames] using hnodupS)
    simpa [identPropNames] using h
  · exact countP_membersDiags env declaration.members henv

/-- Witness for C5: a class with one computed-name property and one
identifier-named property `bar` yields a one-entry instance field map and
one UNSUPPORTED warning. -/
theorem claim_C5_witness :
    (getClassMembers classesEnvA declC5).fieldMap.length = 1 ∧
    (getClassMembers classesEnvA declC5).diags.countP isUnsupportedWarning = 1 := by
  have henv : ∀ node : ClassMember, ∀ d ∈ classesEnvA.extDiags node,
      isUnsupportedWarning d = false := by
    intro node d hd
    cases hd
  have h := claim_C5 classesEnvA declC5 (by decide) (by decide) henv
  refine ⟨?_, ?_⟩
  · rw [h.1]
    decide
  · rw [h.2.2.1]
    decide

end LitAnalyzer
